import Mathlib

/-!
Verification development for the `orm` OTA update agent.

This file gives a shallow embedding of the update pipeline of
`src/update/mod.rs` (together with the helpers of `src/io.rs` and the
data of `src/update/manifest.rs`), and proves or refutes the claims of
the specification against that embedding.

Modelling conventions:
* Rust strings are Lean `String`s; where character-level reasoning is
  needed (URI paths, identifiers) they are `List Char`.
* Fallible I/O is modelled by an environment record whose fields give
  the outcome (`Except String Unit`, the `String` being the displayed
  I/O error) of each primitive filesystem/process operation, in the
  order the code performs them.  The filesystem state touched by
  `run_updated` is an explicit `St` record threaded through the steps,
  and every performed step is recorded in an event trace.
* The `semver` crate (an external dependency) is embedded by
  `Version` with parsing, rendering and ordering following the
  semantic-versioning rules the crate implements.
-/

/-- Semantic-version model of `semver::Version` (external dependency of
`src/update/mod.rs`): `major.minor.patch` with optional pre-release and
build-metadata identifier lists (`[]` = absent). -/
structure Version where
  major : Nat
  minor : Nat
  patch : Nat
  pre : List (List Char)
  build : List (List Char)
deriving DecidableEq

/-- Comparison of natural numbers, as `u64::cmp` behaves in Rust. -/
def natCmp (a b : Nat) : Ordering :=
  if a < b then .lt else if b < a then .gt else .eq

/-- Comparison of characters (Rust `char::cmp`, by scalar value). -/
def charCmp (a b : Char) : Ordering :=
  natCmp a.toNat b.toNat

/-- Lexicographic comparison of character lists (Rust `str::cmp`). -/
def lexCmp : List Char → List Char → Ordering
  | [], [] => .eq
  | [], _ :: _ => .lt
  | _ :: _, [] => .gt
  | a :: as, b :: bs => (charCmp a b).then (lexCmp as bs)

/-- Numeric value of a digit list. -/
def natOfDigits (cs : List Char) : Nat :=
  cs.foldl (fun n c => n * 10 + (c.toNat - 48)) 0

/-- Comparison of one pre-release identifier against another, following
the `semver` crate: two numeric identifiers compare numerically, a
numeric identifier is less than an alphanumeric one, and two
alphanumeric identifiers compare in ASCII order. -/
def identCmpPre (a b : List Char) : Ordering :=
  match a.all Char.isDigit, b.all Char.isDigit with
  | true, true => natCmp (natOfDigits a) (natOfDigits b)
  | true, false => .lt
  | false, true => .gt
  | false, false => lexCmp a b

/-- Identifier-by-identifier comparison of two nonempty pre-release
identifier lists; a list that runs out first compares less. -/
def cmpIdentsPre : List (List Char) → List (List Char) → Ordering
  | [], [] => .eq
  | [], _ :: _ => .lt
  | _ :: _, [] => .gt
  | a :: as, b :: bs => (identCmpPre a b).then (cmpIdentsPre as bs)

/-- Pre-release comparison (`semver::Prerelease::cmp`): the empty
pre-release (a real release) is greater than any pre-release. -/
def cmpPre (a b : List (List Char)) : Ordering :=
  match a, b with
  | [], [] => .eq
  | [], _ :: _ => .gt
  | _ :: _, [] => .lt
  | a, b => cmpIdentsPre a b

/-- Comparison of one build-metadata identifier against another,
following the `semver` crate: two all-digit identifiers compare first
by their numeric value (leading zeros stripped) and then by raw
length; digits sort below non-digits; otherwise ASCII order. -/
def identCmpBuild (a b : List Char) : Ordering :=
  match a.all Char.isDigit, b.all Char.isDigit with
  | true, true =>
    let a2 := a.dropWhile (fun c => c = '0')
    let b2 := b.dropWhile (fun c => c = '0')
    (((natCmp a2.length b2.length).then (lexCmp a2 b2)).then
      (natCmp a.length b.length))
  | true, false => .lt
  | false, true => .gt
  | false, false => lexCmp a b

/-- Identifier-by-identifier comparison of build-metadata lists. -/
def cmpIdentsBuild : List (List Char) → List (List Char) → Ordering
  | [], [] => .eq
  | [], _ :: _ => .lt
  | _ :: _, [] => .gt
  | a :: as, b :: bs => (identCmpBuild a b).then (cmpIdentsBuild as bs)

/-- The `semver` crate compares the raw build string split on dots, so
an absent build behaves as the single empty identifier. -/
def buildIdents (b : List (List Char)) : List (List Char) :=
  match b with
  | [] => [[]]
  | l => l

/-- Build-metadata comparison (`semver::BuildMetadata::cmp`). -/
def cmpBuild (a b : List (List Char)) : Ordering :=
  cmpIdentsBuild (buildIdents a) (buildIdents b)

/-- Total comparison of versions (`semver::Version::cmp`): major,
minor, patch, pre-release, then build metadata. -/
def Version.comp (a b : Version) : Ordering :=
  (natCmp a.major b.major).then
    ((natCmp a.minor b.minor).then
      ((natCmp a.patch b.patch).then
        ((cmpPre a.pre b.pre).then (cmpBuild a.build b.build))))

/-- Rust `a <= b` for versions: `a.cmp(&b)` is not `Greater`. -/
def vle (a b : Version) : Bool :=
  match Version.comp a b with
  | .gt => false
  | _ => true

/-- Rust `a < b` for versions: `a.cmp(&b)` is `Less`. -/
def vlt (a b : Version) : Bool :=
  match Version.comp a b with
  | .lt => true
  | _ => false

/-- Split a character list at every occurrence of `sep`, keeping empty
pieces (Rust `str::split(sep)`). -/
def splitOnChar (sep : Char) : List Char → List (List Char)
  | [] => [[]]
  | c :: rest =>
    let r := splitOnChar sep rest
    if c = sep then [] :: r
    else
      match r with
      | s :: ss => (c :: s) :: ss
      | [] => [[c]]

/-- Split at the first occurrence of `sep`: the piece before it and,
when `sep` occurs, the remainder after it. -/
def splitFirst (sep : Char) : List Char → List Char × Option (List Char)
  | [] => ([], none)
  | c :: rest =>
    if c = sep then ([], some rest)
    else
      let (a, b) := splitFirst sep rest
      (c :: a, b)

/-- Parse one numeric version component: nonempty, all digits, and no
leading zero unless the component is exactly `0`. -/
def parseNumPart (cs : List Char) : Option Nat :=
  if cs.isEmpty then none
  else if !(cs.all Char.isDigit) then none
  else if cs.head? = some '0' && cs.length != 1 then none
  else some (natOfDigits cs)

/-- Characters allowed in pre-release/build identifiers. -/
def isIdentChar (c : Char) : Bool :=
  c.isAlpha || c.isDigit || c = '-'

/-- A valid pre-release identifier: nonempty, alphanumeric/hyphen, and
numeric identifiers carry no leading zeros. -/
def validPreIdent (cs : List Char) : Bool :=
  !cs.isEmpty && cs.all isIdentChar &&
    (if cs.all Char.isDigit then cs.length = 1 || cs.head? != some '0' else true)

/-- A valid build identifier: nonempty, alphanumeric/hyphen. -/
def validBuildIdent (cs : List Char) : Bool :=
  !cs.isEmpty && cs.all isIdentChar

/-- `semver::Version::parse`: `major.minor.patch` with optional
`-pre` (before any `+`) and `+build` parts. -/
def Version.parse (s : String) : Option Version :=
  let cs := s.data
  let (beforePlus, buildPart) := splitFirst '+' cs
  let (corePart, prePart) := splitFirst '-' beforePlus
  match splitOnChar '.' corePart with
  | [ma, mi, pa] =>
    match parseNumPart ma, parseNumPart mi, parseNumPart pa with
    | some major, some minor, some patch =>
      let preIds : Option (List (List Char)) :=
        match prePart with
        | none => some []
        | some p =>
          let ids := splitOnChar '.' p
          if ids.all validPreIdent then some ids else none
      let buildIds : Option (List (List Char)) :=
        match buildPart with
        | none => some []
        | some b =>
          let ids := splitOnChar '.' b
          if ids.all validBuildIdent then some ids else none
      match preIds, buildIds with
      | some pre, some build => some ⟨major, minor, patch, pre, build⟩
      | _, _ => none
    | _, _, _ => none
  | _ => none

/-- `Display` of a version: `major.minor.patch[-pre][+build]`. -/
def Version.render (v : Version) : String :=
  toString v.major ++ "." ++ toString v.minor ++ "." ++ toString v.patch
    ++ (match v.pre with
        | [] => ""
        | ids => "-" ++ String.intercalate "." (ids.map String.mk))
    ++ (match v.build with
        | [] => ""
        | ids => "+" ++ String.intercalate "." (ids.map String.mk))

/-- First accepted line of a line list (the loop of `find_line` in
`src/io.rs`). -/
def findLineIn (lines : List String) (accepts : String → Bool) : Option String :=
  match lines with
  | [] => none
  | l :: rest => if accepts l then some l else findLineIn rest accepts

/-- `find_line` of `src/io.rs`: opening a missing file is an I/O error;
otherwise the first accepted line (or `none`) is returned. The file is
modelled as `none` (absent) or `some lines`. -/
def find_line (file : Option (List String)) (accepts : String → Bool) :
    Except String (Option String) :=
  match file with
  | none => .error "No such file or directory (os error 2)"
  | some lines => .ok (findLineIn lines accepts)

/-- One manifest device rule (`manifest::Device`): a regex pattern
string and a version string. -/
structure Device where
  pattern : String
  version : String
deriving DecidableEq

/-- The match test applied to one device inside `device_settings`
(lines 222-232 of `src/update/mod.rs`): compile the pattern and test
`thing_id`; a pattern that does not compile is only warned about and
matches nothing.  The external `regex` engine is the parameter
`compileRegex`, returning `none` exactly for invalid patterns. -/
def deviceMatches (compileRegex : String → Option (String → Bool))
    (thingId : String) (dev : Device) : Bool :=
  match compileRegex dev.pattern with
  | some isMatchFn => isMatchFn thingId
  | none => false

/-- The device scan of `device_settings`: first declared device whose
pattern compiles and matches `thing_id` (`Iterator::find` on the
manifest order). -/
def device_settings_scan (compileRegex : String → Option (String → Bool))
    (devices : List Device) (thingId : String) : Option Device :=
  devices.find? (fun dev => deviceMatches compileRegex thingId dev)

/-- ASCII letter, the class `[A-Za-z]` of the thing-ID regex. -/
def isIdLetter (c : Char) : Bool :=
  ('A' ≤ c && c ≤ 'Z') || ('a' ≤ c && c ≤ 'z')

/-- The continuation class `[A-Za-z0-9-]` of the thing-ID regex. -/
def isIdContChar (c : Char) : Bool :=
  isIdLetter c || ('0' ≤ c && c ≤ '9') || c = '-'

/-- Language of the full regex `[A-Za-z]+[A-Za-z0-9-]*`: since letters
are also continuation characters, a word is in the language exactly
when it is nonempty, starts with a letter and continues with
continuation characters. -/
def idRegexFull (cs : List Char) : Bool :=
  match cs with
  | [] => false
  | c :: rest => isIdLetter c && rest.all isIdContChar

/-- `Regex::is_match` of the `regex` crate is an unanchored search:
some contiguous substring is in the language of the pattern. -/
def idRegexIsMatch (cs : List Char) : Bool :=
  (List.range (cs.length + 1)).any (fun i =>
    (List.range (cs.length - i + 1)).any (fun n =>
      idRegexFull ((cs.drop i).take n)))

/-- ASCII whitespace for trimming. -/
def isAsciiWs (c : Char) : Bool :=
  c = ' ' || c = '\t' || c = '\n' || c = '\r'

/-- Rust `str::trim`: drop whitespace from both ends. -/
def trimChars (cs : List Char) : List Char :=
  ((cs.dropWhile isAsciiWs).reverse.dropWhile isAsciiWs).reverse

/-- Captured output of the `id.sh` command: `none` models stdout bytes
that are not valid UTF-8, `some cs` the decoded text. -/
structure CmdOutput where
  stdout : Option (List Char)
deriving DecidableEq

/-- `resolve_id` of `src/update/mod.rs` (lines 153-176): run `id.sh`
(outcome given by `cmdRes`), decode stdout, trim it, and require the
unanchored regex `[A-Za-z]+[A-Za-z0-9-]*` to find a match in it. -/
def resolve_id (cmdRes : Except String CmdOutput) : Except String (List Char) :=
  match cmdRes with
  | .error e => .error ("Fails to execute command id.sh: " ++ e)
  | .ok out =>
    match out.stdout with
    | none => .error "UTF8 error: invalid utf-8 sequence"
    | some text =>
      let thingId := trimChars text
      if idRegexIsMatch thingId then .ok thingId
      else .error ("Invalid thing ID: " ++ String.mk thingId)

/-- Modelled from the spec: the specification states the trimmed thing
ID must conform to the pattern `[A-Za-z][A-Za-z0-9-]*`, read as a full
(anchored) match of the whole value.  Used only to compare the claim
against the behaviour of `resolve_id`. -/
def specIdConforms (cs : List Char) : Bool :=
  match cs with
  | [] => false
  | c :: rest => isIdLetter c && rest.all isIdContChar

/-- `str::split('/')` on a path. -/
def splitSlash (cs : List Char) : List (List Char) :=
  splitOnChar '/' cs

/-- The parent-path fold of `parent_uri` (lines 255-263 of
`src/update/mod.rs`): over all but the last split segment, skip empty
segments and prepend `/` to each kept one. -/
def parentPathChars (path : List Char) : List Char :=
  let segs := splitSlash path
  (segs.take (segs.length - 1)).foldl
    (fun out seg => if seg = [] then out else out ++ '/' :: seg) []

/-- `http::uri::PathAndQuery::path` renders the empty path as `/`. -/
def uriPathChars (p : List Char) : List Char :=
  if p = [] then ['/'] else p

/-- `Display` of a `hyper::Uri` assembled from scheme, authority and
path: `scheme://authority` followed by the (normalised) path. -/
def renderUriChars (scheme authority p : List Char) : List Char :=
  scheme ++ (':' :: '/' :: '/' :: []) ++ authority ++ uriPathChars p

/-- `parent_uri` of `src/update/mod.rs` (lines 238-272), for a URL
already decomposed by the `http` URI parser into scheme, authority and
optional path-and-query (whose path component is `pathOf`).  The
rendered parent URI is returned; `none` models the two error exits. -/
def parent_uri (scheme authority : List Char) (pathOf : Option (List Char)) :
    Option (List Char) :=
  match pathOf with
  | none => none
  | some path =>
    let segs := splitSlash path
    if segs.length = 0 then none
    else some (renderUriChars scheme authority (parentPathChars path))

/-- The archive path built by `download_archive_to` (lines 286-296):
`format!` of the parent path, `/`, `<app_name>-<version>.tar.gz`. -/
def archivePathChars (parentPath appName ver : List Char) : List Char :=
  uriPathChars parentPath ++ '/' :: (appName ++ '-' :: (ver ++ ".tar.gz".data))

/-- The rendered archive URL: same scheme and authority as the parent
URI, with the archive path. -/
def archiveUriChars (scheme authority parentPath appName ver : List Char) :
    List Char :=
  scheme ++ (':' :: '/' :: '/' :: []) ++ authority
    ++ archivePathChars parentPath appName ver

/-- Join segments into an absolute path: `/s1/s2/.../sn` (empty for no
segments). -/
def slashJoin (ss : List (List Char)) : List Char :=
  (ss.map (fun s => '/' :: s)).flatten

/-- One entry of the gzip+tar archive stream, as seen by
`extract_archive`: `readOk` models the entry (and its path) being
readable from the stream (`entries()... filter_map(e.ok())` and
`entry.path()?`), `path` its archive-relative path split in components,
and `unpackOk` whether `entry.unpack` to the staging directory
succeeds. -/
structure TarEntry where
  readOk : Bool
  path : List String
  unpackOk : Bool
deriving DecidableEq

/-- The archive-relative paths that survive both `filter_map` steps of
`extract_archive` (readable entries whose unpack succeeded). -/
def extractedPaths (entries : List TarEntry) : List (List String) :=
  ((entries.filter (fun e => e.readOk)).filter (fun e => e.unpackOk)).map
    (fun e => e.path)

/-- The filter of line 334-337 of `src/update/mod.rs`: the path parent
equals the app-name path and the path ends with `run.sh` or `id.sh`
(Rust `Path::ends_with` compares whole components). -/
def qualifies (appName : String) (p : List String) : Bool :=
  match p with
  | [d, f] => d == appName && (f == "run.sh" || f == "id.sh")
  | _ => false

/-- Failure of `extract_archive`, carrying the qualifying entries that
were found (embedded in the formatted message of the code). -/
inductive ExtractErr
  | invalidArchive (found : List (List String))
deriving DecidableEq

/-- `extract_archive` of `src/update/mod.rs` (lines 314-350): unpack
every readable entry into the staging directory, collect the paths
whose parent is the app name and whose filename is `run.sh` or `id.sh`,
and fail unless exactly 2 such paths were collected. -/
def extract_archive (appName : String) (entries : List TarEntry) :
    Except ExtractErr Nat :=
  let found := (extractedPaths entries).filter (qualifies appName)
  if found.length ≠ 2 then .error (.invalidArchive found)
  else .ok found.length

/-- Rust `Path::join` (via `PathBuf::push`) on component lists, as used
at `extracted_path.join(&path)` in line 327 of `src/update/mod.rs`.
Paths are component lists where, following Rust's
`Path::components`, an absolute path starts with the root component,
modelled as the component `/`.  Pushing an absolute path replaces the
base path entirely. -/
def joinPath (base p : List String) : List String :=
  match p with
  | "/" :: _ => p
  | _ => base ++ p

/-- Lexical resolution of `.` and `..` components, as the filesystem
applies them when `entry.unpack` writes at the joined path: `..` pops
the previously resolved component, `.` is skipped (symbolic links are
not modelled). -/
def resolvePath (acc : List String) : List String → List String
  | [] => acc
  | c :: rest =>
    if c = ".." then resolvePath acc.dropLast rest
    else if c = "." then resolvePath acc rest
    else resolvePath (acc ++ [c]) rest

/-- The filesystem location actually written for one archive-relative
entry path: the resolution of `extracted_path.join(path)`.
`entry.unpack` (line 331) applies no traversal sanitization, so nothing
constrains this target to lie below the staging directory: an absolute
entry path replaces the staging base, and `..` components climb out of
it. -/
def unpackTarget (stagingDir p : List String) : List String :=
  resolvePath [] (joinPath stagingDir p)

/-- The filesystem paths written by the extraction: the unpack target
of each successfully unpacked entry. -/
def extractWrites (stagingDir : List String) (entries : List TarEntry) :
    List (List String) :=
  (extractedPaths entries).map (unpackTarget stagingDir)

/-- Which generation of application code a directory holds. -/
inductive AppContent
  | oldGen
  | newGen
deriving DecidableEq

/-- A directory holding application code, together with the content of
its `.orm_version` marker file (if any); the marker travels with the
directory when it is renamed. -/
structure AppDirSt where
  content : AppContent
  marker : Option String
deriving DecidableEq

/-- The filesystem and process state touched by the swap/supervise
phase: the live `app_dir`, the timestamped archived-previous directory
and its tarball, the staged `<extracted>/<app_name>` subtree, the
retained `<app_name>*.tar.gz` file names already in `local_prefix`, the
`.orm_failed` ledger (`none` = absent file), and the child process
flags. -/
structure St where
  appDir : Option AppDirSt
  archivedDir : Option AppDirSt
  archivedTar : Bool
  stagingApp : Option AppDirSt
  retained : List String
  ledger : Option (List String)
  childSpawned : Bool
  childWaited : Bool
deriving DecidableEq

/-- Outcomes of the fallible primitive operations performed by
`run_updated`, in code order.  Each field models the response of the
filesystem (or OS) to the corresponding call; an `error e` carries the
I/O error display string `e`. -/
structure RunEnv where
  rename1 : Except String Unit
  rename2 : Except String Unit
  spawnRes : Except String Unit
  listRes : Except String Unit
  createTarRes : Except String Unit
  appendDirRes : Except String Unit
  removeArchivedRes : Except String Unit
  removeFileRes : String → Except String Unit
  createMarkerRes : Except String Unit
  writeMarkerRes : Except String Unit
  waitRes : Except String Int
  openLedgerRes : Except String Unit
  appendLedgerRes : Except String Unit
  removeAppDirRes : Except String Unit
  renameBackRes : Except String Unit

/-- Events recorded by the swap/supervise phase, in execution order. -/
inductive Ev
  | renamedAppToArchived
  | renamedStagedToApp
  | spawned
  | listedArchives (names : List String)
  | createdArchiveTar
  | appendedArchiveDir
  | removedArchivedDir
  | removedRetained (name : String)
  | createdMarker
  | wroteMarker (v : String)
  | waited (code : Int)
  | appendedLedger (v : String)
  | removedAppDir
  | renamedArchivedToApp
deriving DecidableEq

/-- Display string of an I/O error converted through
`From<IoError> for Error` of `src/err.rs`. -/
def ioMsg (e : String) : String := "I/O error: " ++ e

/-- The revert message of `run_updated`, embedding the original error. -/
def revertMsg (e : String) : String :=
  "Reverts due to failed execution of application from update archive: " ++ e

/-- The archive-pruning loop of `run_updated` (lines 413-417): delete
each previously listed retained archive, propagating the first
failure.  Removing a file drops its name from the retained set. -/
def pruneLoop (env : RunEnv) :
    List String → St → List Ev → Except String Unit × St × List Ev
  | [], st, tr => (.ok (), st, tr)
  | n :: rest, st, tr =>
    match env.removeFileRes n with
    | .error e => (.error e, st, tr)
    | .ok _ =>
      pruneLoop env rest { st with retained := st.retained.erase n }
        (tr ++ [.removedRetained n])

/-- Outcome of the pruning loop, which depends only on the listed
names and the environment. -/
def pruneResult (env : RunEnv) : List String → Except String Unit
  | [] => .ok ()
  | n :: rest =>
    match env.removeFileRes n with
    | .error e => .error e
    | .ok _ => pruneResult env rest

/-- The `and_then` chain of `run_updated` (lines 383-426), entered
after `app_dir` was renamed to the archived path: rename the staged
subtree to `app_dir`, spawn `run.sh`, list the previously retained
archives, create and fill the archived tarball, delete the uncompressed
archived directory, prune the listed archives, write the version
marker, and wait for the child.  Returns the child's exit status or
the first I/O error. -/
def runHappy (env : RunEnv) (versionStr : String) (st0 : St) :
    Except String Int × St × List Ev :=
  match env.rename2 with
  | .error e => (.error e, st0, [])
  | .ok _ =>
    let st1 : St := { st0 with appDir := st0.stagingApp, stagingApp := none }
    let tr1 : List Ev := [.renamedStagedToApp]
    match env.spawnRes with
    | .error e => (.error e, st1, tr1)
    | .ok _ =>
      let st2 : St := { st1 with childSpawned := true }
      let tr2 : List Ev := tr1 ++ [.spawned]
      match env.listRes with
      | .error e => (.error e, st2, tr2)
      | .ok _ =>
        let prev := st2.retained
        let tr3 : List Ev := tr2 ++ [.listedArchives prev]
        match env.createTarRes with
        | .error e => (.error e, st2, tr3)
        | .ok _ =>
          let st3 : St := { st2 with archivedTar := true }
          let tr4 : List Ev := tr3 ++ [.createdArchiveTar]
          match env.appendDirRes with
          | .error e => (.error e, st3, tr4)
          | .ok _ =>
            let tr5 : List Ev := tr4 ++ [.appendedArchiveDir]
            match env.removeArchivedRes with
            | .error e => (.error e, st3, tr5)
            | .ok _ =>
              let st4 : St := { st3 with archivedDir := none }
              let tr6 : List Ev := tr5 ++ [.removedArchivedDir]
              match pruneLoop env prev st4 tr6 with
              | (.error e, st5, tr7) => (.error e, st5, tr7)
              | (.ok _, st5, tr7) =>
                match env.createMarkerRes with
                | .error e => (.error e, st5, tr7)
                | .ok _ =>
                  let st6 : St := { st5 with
                    appDir := st5.appDir.map (fun d => { d with marker := some "" }) }
                  let tr8 : List Ev := tr7 ++ [.createdMarker]
                  match env.writeMarkerRes with
                  | .error e => (.error e, st6, tr8)
                  | .ok _ =>
                    let st7 : St := { st6 with
                      appDir := st6.appDir.map
                        (fun d => { d with marker := some versionStr }) }
                    let tr9 : List Ev := tr8 ++ [.wroteMarker versionStr]
                    match env.waitRes with
                    | .error e => (.error e, st7, tr9)
                    | .ok code =>
                      ( .ok code, { st7 with childWaited := true },
                        tr9 ++ [.waited code] )

/-- The result sum type of the pipeline (`ExecutionStatus` of
`src/update/mod.rs`): no update performed (with a reason), or the
updated application terminated with an exit status (modelled as the
exit code). -/
inductive ExecutionStatus
  | NoUpdate (reason : String)
  | AppTerminated (exitStatus : Int)
deriving DecidableEq

/-- Tail of the `or_else` revert (lines 455-457): rename the archived
directory back to `app_dir` and report `NoUpdate`; a rename failure is
converted through `From<IoError>` and propagates. -/
def revertFinish (env : RunEnv) (msg : String) (st : St) (tr : List Ev) :
    Except String ExecutionStatus × St × List Ev :=
  match env.renameBackRes with
  | .error e => (.error (ioMsg e), st, tr)
  | .ok _ =>
    ( .ok (.NoUpdate msg),
      { st with appDir := st.archivedDir, archivedDir := none },
      tr ++ [.renamedArchivedToApp] )

/-- `run_updated` of `src/update/mod.rs` (lines 352-461).  The first
rename (live `app_dir` → timestamped archived path) fails hard through
`?`.  On any later failure the `or_else` arm appends the attempted
version string to the `.orm_failed` ledger (opening it with
`create(true)`), removes `app_dir` if it is a directory, and renames
the archived directory back; failures of these recovery steps
propagate through `?` as converted I/O errors. -/
def run_updated (env : RunEnv) (versionStr : String) (st0 : St) :
    Except String ExecutionStatus × St × List Ev :=
  match env.rename1 with
  | .error e => (.error (ioMsg e), st0, [])
  | .ok _ =>
    let st1 : St := { st0 with archivedDir := st0.appDir, appDir := none }
    let tr1 : List Ev := [.renamedAppToArchived]
    match runHappy env versionStr st1 with
    | (.ok code, st2, tr2) => (.ok (.AppTerminated code), st2, tr1 ++ tr2)
    | (.error err, st2, tr2) =>
      let msg := revertMsg err
      match env.openLedgerRes with
      | .error e => (.error (ioMsg e), st2, tr1 ++ tr2)
      | .ok _ =>
        let st3 : St := { st2 with ledger := some (st2.ledger.getD []) }
        match env.appendLedgerRes with
        | .error e => (.error (ioMsg e), st3, tr1 ++ tr2)
        | .ok _ =>
          let st4 : St := { st3 with
            ledger := st3.ledger.map (fun l => l ++ [versionStr]) }
          let tr3 : List Ev := tr1 ++ tr2 ++ [.appendedLedger versionStr]
          match st4.appDir with
          | some _ =>
            match env.removeAppDirRes with
            | .error e => (.error (ioMsg e), st4, tr3)
            | .ok _ =>
              revertFinish env msg { st4 with appDir := none }
                (tr3 ++ [.removedAppDir])
          | none => revertFinish env msg st4 tr3

/-- Outcomes of the fallible operations of `execute` around the swap:
the archive download, the archive entries found in the downloaded
stream, the environment for `run_updated`, and the state of the
staging directory cleanup of lines 131-146. -/
structure ExecEnv where
  downloadRes : Except String Nat
  entries : List TarEntry
  runEnv : RunEnv
  stagingIsDir : Bool
  removeStagingRes : Except String Unit

deriving instance DecidableEq for Except

/-- Result of one modelled `execute` attempt: the returned value, a
flag for having passed the forward-only version gate, a flag for the
archive fetch having been issued, the final state and the swap-phase
event trace. -/
structure ExecOut where
  result : Except String ExecutionStatus
  gatePassed : Bool
  fetched : Bool
  state : St
  events : List Ev
deriving DecidableEq

/-- The up-to-date message of lines 73-76 (note the code formats the
new version on the left). -/
def upToDateMsg (nv cur : Version) : String :=
  "Application version is already up-to-date: " ++ nv.render ++ " < " ++ cur.render

/-- The failed-version message of lines 90-93. -/
def failedVerMsg (nv : Version) : String :=
  "Application version is a failed one: " ++ nv.render

/-- Rendering of the invalid-archive error message of lines 343-346. -/
def invalidArchiveMsg (found : List (List String)) : String :=
  "Invalid archive; Missing script(s): "
    ++ String.intercalate ", " (found.map (String.intercalate "/"))

/-- `execute` of `src/update/mod.rs` (lines 40-149), from the point
where the matched device's version string is parsed (line 70); the
preceding identity/manifest stages are modelled separately
(`resolve_id`, `device_settings_scan`).  Stages before `run_updated`
leave the state untouched; an error of `run_updated` triggers the
`map_err` staging-cleanup of lines 131-146, in which a failing
`remove_dir_all` replaces the original error. -/
def executeM (appName : String) (cur : Version) (verStr : String)
    (env : ExecEnv) (st0 : St) : ExecOut :=
  match Version.parse verStr with
  | none => ⟨.error "invalid device version", false, false, st0, []⟩
  | some nv =>
    if vle nv cur then
      ⟨.ok (.NoUpdate (upToDateMsg nv cur)), false, false, st0, []⟩
    else
      match find_line st0.ledger
          (fun line =>
            match Version.parse line with
            | some v => v == nv
            | none => false) with
      | .error e => ⟨.error (ioMsg e), true, false, st0, []⟩
      | .ok (some _) =>
        ⟨.ok (.NoUpdate (failedVerMsg nv)), true, false, st0, []⟩
      | .ok none =>
        match env.downloadRes with
        | .error e => ⟨.error e, true, true, st0, []⟩
        | .ok _ =>
          match extract_archive appName env.entries with
          | .error (.invalidArchive found) =>
            ⟨.error (invalidArchiveMsg found), true, true, st0, []⟩
          | .ok _ =>
            match run_updated env.runEnv verStr st0 with
            | (.ok status, st1, tr) => ⟨.ok status, true, true, st1, tr⟩
            | (.error err, st1, tr) =>
              if !env.stagingIsDir then ⟨.error err, true, true, st1, tr⟩
              else
                match env.removeStagingRes with
                | .error cause => ⟨.error (ioMsg cause), true, true, st1, tr⟩
                | .ok _ => ⟨.error err, true, true, st1, tr⟩

/-- A run environment in which every primitive operation succeeds and
the child exits with status 0. -/
def envOk : RunEnv where
  rename1 := .ok ()
  rename2 := .ok ()
  spawnRes := .ok ()
  listRes := .ok ()
  createTarRes := .ok ()
  appendDirRes := .ok ()
  removeArchivedRes := .ok ()
  removeFileRes := fun _ => .ok ()
  createMarkerRes := .ok ()
  writeMarkerRes := .ok ()
  waitRes := .ok 0
  openLedgerRes := .ok ()
  appendLedgerRes := .ok ()
  removeAppDirRes := .ok ()
  renameBackRes := .ok ()

/-- A typical pre-update state: a live old-generation `app_dir` with a
version marker, a staged new generation, one previously retained
archive tarball, and an existing empty ledger. -/
def stPre : St where
  appDir := some { content := .oldGen, marker := some "1.0.0" }
  archivedDir := none
  archivedTar := false
  stagingApp := some { content := .newGen, marker := none }
  retained := ["orm-20200101000000.tar.gz"]
  ledger := some []
  childSpawned := false
  childWaited := false

/-- Current installed version used by the concrete scenarios. -/
def v100 : Version := ⟨1, 0, 0, [], []⟩

/-- Candidate version used by the concrete scenarios. -/
def v101 : Version := ⟨1, 0, 1, [], []⟩

/-- Archive entries of a well-formed release archive for app `orm`. -/
def goodEntries : List TarEntry :=
  [⟨true, ["orm", "run.sh"], true⟩, ⟨true, ["orm", "id.sh"], true⟩]

/-- Environment of the staging-cleanup scenario: the spawn fails, the
restoring rename of the rollback fails too (so `run_updated` surfaces
an error), and the recursive removal of the staging directory fails. -/
def execEnvCleanupFail : ExecEnv where
  downloadRes := .ok 1024
  entries := goodEntries
  runEnv := { envOk with
    spawnRes := .error "spawn denied"
    renameBackRes := .error "revert rename failed" }
  stagingIsDir := true
  removeStagingRes := .error "cleanup denied"

/-- An I/O failure with display `e` in one of the archival/marker
steps of `run_updated`'s success branch (lines 392-423): listing the
retained archives, creating the archived tarball, filling it, deleting
the uncompressed archived directory, pruning a retained archive, or
creating/writing the version marker — each case under success of the
preceding steps, as the code stops at the first failure. -/
def archivalFails (env : RunEnv) (retained : List String) (e : String) : Prop :=
  env.listRes = .error e
  ∨ (env.listRes = .ok () ∧ env.createTarRes = .error e)
  ∨ (env.listRes = .ok () ∧ env.createTarRes = .ok ()
      ∧ env.appendDirRes = .error e)
  ∨ (env.listRes = .ok () ∧ env.createTarRes = .ok ()
      ∧ env.appendDirRes = .ok () ∧ env.removeArchivedRes = .error e)
  ∨ (env.listRes = .ok () ∧ env.createTarRes = .ok ()
      ∧ env.appendDirRes = .ok () ∧ env.removeArchivedRes = .ok ()
      ∧ pruneResult env retained = .error e)
  ∨ (env.listRes = .ok () ∧ env.createTarRes = .ok ()
      ∧ env.appendDirRes = .ok () ∧ env.removeArchivedRes = .ok ()
      ∧ pruneResult env retained = .ok () ∧ env.createMarkerRes = .error e)
  ∨ (env.listRes = .ok () ∧ env.createTarRes = .ok ()
      ∧ env.appendDirRes = .ok () ∧ env.removeArchivedRes = .ok ()
      ∧ pruneResult env retained = .ok () ∧ env.createMarkerRes = .ok ()
      ∧ env.writeMarkerRes = .error e)

/-- A failure with display `e` of an update attempt that has reached
the swap (the second rename succeeded): the spawn of `run.sh` fails,
or an archival/marker-write step fails, or the wait on the child
fails — the failure categories of the specification's failure path. -/
def failsAfterSwap (env : RunEnv) (retained : List String) (e : String) : Prop :=
  env.spawnRes = .error e
  ∨ (env.spawnRes = .ok () ∧ archivalFails env retained e)
  ∨ (env.spawnRes = .ok () ∧ env.listRes = .ok ()
      ∧ env.createTarRes = .ok () ∧ env.appendDirRes = .ok ()
      ∧ env.removeArchivedRes = .ok () ∧ pruneResult env retained = .ok ()
      ∧ env.createMarkerRes = .ok () ∧ env.writeMarkerRes = .ok ()
      ∧ env.waitRes = .error e)

/-- A concrete regex engine for the scenarios: the pattern `bad(` is
invalid; any other pattern matches exactly itself. -/
def cwRegex (p : String) : Option (String → Bool) :=
  if p = "bad(" then none else some (fun s => s == p)

/-- A device with an invalid pattern. -/
def devBad : Device := ⟨"bad(", "1.0.0"⟩

/-- First device with a matching pattern. -/
def devOne : Device := ⟨"x1", "1.0.1"⟩

/-- Second device with the same matching pattern. -/
def devTwo : Device := ⟨"x1", "1.0.2"⟩

/-- A readable archive entry `orm/run.sh` that unpacks fine. -/
def runEntry : TarEntry := ⟨true, ["orm", "run.sh"], true⟩

/-- Like `execEnvCleanupFail`, but the staging-directory removal of the
cleanup succeeds. -/
def execEnvCleanupOk : ExecEnv :=
  { execEnvCleanupFail with removeStagingRes := .ok () }

theorem ordThenSwap (a b : Ordering) : (a.then b).swap = a.swap.then b.swap := by
  cases a <;> rfl

theorem swapEqGt (o : Ordering) : o.swap = .gt ↔ o = .lt := by
  cases o <;> simp [Ordering.swap]

theorem natCmp_swap (a b : Nat) : natCmp a b = (natCmp b a).swap := by
  unfold natCmp
  split_ifs <;> first | rfl | omega

theorem charCmp_swap (a b : Char) : charCmp a b = (charCmp b a).swap := by
  unfold charCmp
  exact natCmp_swap _ _

theorem lexCmp_swap (a b : List Char) : lexCmp a b = (lexCmp b a).swap := by
  induction a generalizing b with
  | nil => cases b <;> rfl
  | cons x xs ih =>
    cases b with
    | nil => rfl
    | cons y ys =>
      simp only [lexCmp, ordThenSwap, charCmp_swap x y, ih ys]

theorem identCmpPre_swap (a b : List Char) :
    identCmpPre a b = (identCmpPre b a).swap := by
  unfold identCmpPre
  cases ha : a.all Char.isDigit <;> cases hb : b.all Char.isDigit
  · exact lexCmp_swap a b
  · rfl
  · rfl
  · exact natCmp_swap _ _

theorem cmpIdentsPre_swap (a b : List (List Char)) :
    cmpIdentsPre a b = (cmpIdentsPre b a).swap := by
  induction a generalizing b with
  | nil => cases b <;> rfl
  | cons x xs ih =>
    cases b with
    | nil => rfl
    | cons y ys =>
      simp only [cmpIdentsPre, ordThenSwap, identCmpPre_swap x y, ih ys]

theorem cmpPre_swap (a b : List (List Char)) :
    cmpPre a b = (cmpPre b a).swap := by
  cases a with
  | nil => cases b <;> rfl
  | cons x xs =>
    cases b with
    | nil => rfl
    | cons y ys => simpa [cmpPre] using cmpIdentsPre_swap (x :: xs) (y :: ys)

theorem identCmpBuild_swap (a b : List Char) :
    identCmpBuild a b = (identCmpBuild b a).swap := by
  unfold identCmpBuild
  cases ha : a.all Char.isDigit <;> cases hb : b.all Char.isDigit
  · exact lexCmp_swap a b
  · rfl
  · rfl
  · dsimp only
    rw [ordThenSwap, ordThenSwap, ← natCmp_swap, ← lexCmp_swap, ← natCmp_swap]

theorem cmpIdentsBuild_swap (a b : List (List Char)) :
    cmpIdentsBuild a b = (cmpIdentsBuild b a).swap := by
  induction a generalizing b with
  | nil => cases b <;> rfl
  | cons x xs ih =>
    cases b with
    | nil => rfl
    | cons y ys =>
      simp only [cmpIdentsBuild, ordThenSwap, identCmpBuild_swap x y, ih ys]

theorem cmpBuild_swap (a b : List (List Char)) :
    cmpBuild a b = (cmpBuild b a).swap := by
  unfold cmpBuild
  exact cmpIdentsBuild_swap _ _

theorem vcomp_swap (a b : Version) :
    Version.comp a b = (Version.comp b a).swap := by
  unfold Version.comp
  simp only [ordThenSwap, natCmp_swap a.major, natCmp_swap a.minor,
    natCmp_swap a.patch, cmpPre_swap a.pre, cmpBuild_swap a.build]

theorem vle_false_iff_vlt (a b : Version) :
    vle b a = false ↔ vlt a b = true := by
  unfold vle vlt
  rw [vcomp_swap b a]
  cases Version.comp a b <;> simp [Ordering.swap]

/-- Claim C3: for every pair of versions, `execute` proceeds past the
version gate toward download and swap iff the new version is strictly
greater than the current one under semantic-version ordering; whenever
the new version is less than or equal, it returns `NoUpdate` without
fetching the archive or touching `app_dir` (the whole outcome equals
the gate outcome, with `fetched = false` and the state unchanged). -/
theorem claim_C3 (appName : String) (cur nv : Version) (verStr : String)
    (env : ExecEnv) (st0 : St) (hparse : Version.parse verStr = some nv) :
    ((executeM appName cur verStr env st0).gatePassed = true ↔ vlt cur nv = true)
    ∧ (vle nv cur = true →
        executeM appName cur verStr env st0 =
          ⟨.ok (.NoUpdate (upToDateMsg nv cur)), false, false, st0, []⟩) := by
  constructor
  · rw [← vle_false_iff_vlt]
    unfold executeM
    rw [hparse]
    cases h : vle nv cur
    · simp only [h, Bool.false_eq_true, if_false, iff_true]
      repeat' split
      all_goals rfl
    · simp [h]
  · intro h
    unfold executeM
    rw [hparse]
    simp [h]

/-- Witness for C3 at a concrete downgrade attempt (candidate `1.0.0`
against current `1.0.1`). -/
theorem claim_C3_witness :
    executeM "orm" v101 "1.0.0" execEnvCleanupFail stPre =
      ⟨.ok (.NoUpdate (upToDateMsg v100 v101)), false, false, stPre, []⟩ :=
  (claim_C3 "orm" v101 v100 "1.0.0" execEnvCleanupFail stPre (by decide)).2
    (by decide)

theorem findLineIn_isSome (lines : List String) (p : String → Bool)
    (l : String) (hmem : l ∈ lines) (hl : p l = true) :
    ∃ r, findLineIn lines p = some r := by
  induction lines with
  | nil => cases hmem
  | cons x xs ih =>
    by_cases hx : p x = true
    · exact ⟨x, by simp [findLineIn, hx]⟩
    · rcases List.mem_cons.mp hmem with h | h
      · exact absurd (h ▸ hl) hx
      · obtain ⟨r, hr⟩ := ih h
        exact ⟨r, by simp [findLineIn, hx, hr]⟩

/-- Claim C4: for every candidate version past the forward-only gate,
if some line of the `.orm_failed` ledger parses to exactly the
candidate version, `execute` returns `NoUpdate` with the
failed-version reason, without downloading the archive
(`fetched = false`) or attempting the update (state unchanged, no
swap-phase events); hence a version recorded in the ledger is never
re-attempted until externally removed from the file. -/
theorem claim_C4 (appName : String) (cur nv : Version) (verStr : String)
    (env : ExecEnv) (st0 : St) (lines : List String) (l : String)
    (hparse : Version.parse verStr = some nv)
    (hgate : vle nv cur = false)
    (hledger : st0.ledger = some lines)
    (hmem : l ∈ lines)
    (hl : Version.parse l = some nv) :
    executeM appName cur verStr env st0 =
      ⟨.ok (.NoUpdate (failedVerMsg nv)), true, false, st0, []⟩ := by
  obtain ⟨r, hr⟩ := findLineIn_isSome lines
    (fun line =>
      match Version.parse line with
      | some v => v == nv
      | none => false) l hmem (by simp [hl])
  unfold executeM
  rw [hparse]
  simp only [hgate, Bool.false_eq_true, if_false]
  unfold find_line
  rw [hledger]
  simp [hr]

/-- Witness for C4: the ledger holds the candidate `1.0.1` (after a
junk line), so the attempt short-circuits. -/
theorem claim_C4_witness :
    executeM "orm" v100 "1.0.1" execEnvCleanupFail
        { stPre with ledger := some ["junk", "1.0.1"] } =
      ⟨.ok (.NoUpdate (failedVerMsg v101)), true, false,
        { stPre with ledger := some ["junk", "1.0.1"] }, []⟩ :=
  claim_C4 "orm" v100 v101 "1.0.1" execEnvCleanupFail
    { stPre with ledger := some ["junk", "1.0.1"] } ["junk", "1.0.1"] "1.0.1"
    (by decide) (by decide) rfl (by decide) (by decide)

/-- Claim C6: the device scan of `device_settings` goes through the
manifest's device list in declared order and returns the first device
whose pattern both compiles and matches the thing ID (so when several
devices match, the first declared one wins and later entries are never
the result); a device whose pattern does not compile is skipped and is
never the result (and the scan itself is total, it cannot fail); if no
device matches, the result is `none`. -/
theorem claim_C6 (compileRegex : String → Option (String → Bool))
    (thingId : String) :
    (∀ (preDevs postDevs : List Device) (d : Device),
        (∀ d2 ∈ preDevs, deviceMatches compileRegex thingId d2 = false) →
        deviceMatches compileRegex thingId d = true →
        device_settings_scan compileRegex (preDevs ++ d :: postDevs) thingId
          = some d)
    ∧ (∀ (devices : List Device) (d : Device),
        device_settings_scan compileRegex devices thingId = some d →
        deviceMatches compileRegex thingId d = true
          ∧ compileRegex d.pattern ≠ none)
    ∧ (∀ devices : List Device,
        (∀ d ∈ devices, deviceMatches compileRegex thingId d = false) →
        device_settings_scan compileRegex devices thingId = none) := by
  refine ⟨?_, ?_, ?_⟩
  · intro preDevs postDevs d hpre hd
    induction preDevs with
    | nil =>
      simpa [device_settings_scan] using List.find?_cons_of_pos _ hd
    | cons x xs ih =>
      have hx : deviceMatches compileRegex thingId x = false :=
        hpre x (List.mem_cons_self x xs)
      have := ih (fun d2 h2 => hpre d2 (List.mem_cons_of_mem x h2))
      simpa [device_settings_scan, List.find?_cons_of_neg, hx] using this
  · intro devices d hfind
    have hmatch : deviceMatches compileRegex thingId d = true :=
      List.find?_some hfind
    refine ⟨hmatch, ?_⟩
    intro hnone
    rw [deviceMatches, hnone] at hmatch
    cases hmatch
  · intro devices hall
    unfold device_settings_scan
    rw [List.find?_eq_none]
    intro d hd
    simp [hall d hd]

/-- Witness for C6: with an invalid first pattern and two later devices
matching `x1`, the scan skips the invalid one and returns the first
match, never the later duplicate. -/
theorem claim_C6_witness :
    device_settings_scan cwRegex [devBad, devOne, devTwo] "x1" = some devOne :=
  (claim_C6 cwRegex "x1").1 [devBad] [devTwo] devOne (by decide) (by decide)

theorem idRegexIsMatch_any (cs : List Char) :
    idRegexIsMatch cs = cs.any isIdLetter := by
  have h1 : idRegexIsMatch cs = true → cs.any isIdLetter = true := by
    intro h
    obtain ⟨i, hi, h⟩ := List.any_eq_true.mp h
    obtain ⟨n, hn, h⟩ := List.any_eq_true.mp h
    rw [List.any_eq_true]
    cases hsub : (cs.drop i).take n with
    | nil => rw [hsub] at h; cases h
    | cons c rest =>
      rw [hsub] at h
      simp only [idRegexFull, Bool.and_eq_true] at h
      have hc : isIdLetter c = true := h.1
      have hmem : c ∈ cs :=
        List.drop_subset i cs
          (List.take_subset n _ (hsub ▸ List.mem_cons_self c rest))
      exact ⟨c, hmem, hc⟩
  have h2 : cs.any isIdLetter = true → idRegexIsMatch cs = true := by
    intro h
    obtain ⟨c, hmem, hc⟩ := List.any_eq_true.mp h
    obtain ⟨i, hi, hgi⟩ := List.getElem_of_mem hmem
    rw [idRegexIsMatch, List.any_eq_true]
    refine ⟨i, List.mem_range.mpr (by omega), ?_⟩
    rw [List.any_eq_true]
    refine ⟨1, List.mem_range.mpr (by omega), ?_⟩
    have hdrop : cs.drop i = c :: cs.drop (i + 1) := by
      rw [List.drop_eq_getElem_cons hi, hgi]
    rw [hdrop]
    simp [idRegexFull, hc]
  cases ha : idRegexIsMatch cs
  · cases hb : cs.any isIdLetter
    · rfl
    · exact absurd (h2 hb) (by simp [ha])
  · exact (h1 ha).symm

/-- Counterexample to C7: the trimmed output `9abc` begins with a digit
and does not conform to the pattern `[A-Za-z][A-Za-z0-9-]*`, yet
`resolve_id` returns it successfully, because `Regex::is_match` is an
unanchored search and finds the match `abc` inside it. -/
theorem claim_C7_counterexample :
    specIdConforms (trimChars " 9abc\n".data) = false
    ∧ resolve_id (.ok ⟨some " 9abc\n".data⟩) = .ok "9abc".data := by
  constructor <;> decide

/-- Claim C7 (amended): `resolve_id` runs the app-supplied `id.sh` and
returns its trimmed stdout as the thing ID; it errors iff the command
cannot run, the output is not valid UTF-8 text, or the trimmed value
contains no ASCII letter at all — because the pattern
`[A-Za-z]+[A-Za-z0-9-]*` is applied as an unanchored search, which
succeeds exactly when some character of the value is an ASCII letter,
not only when the whole value conforms to the anchored pattern. -/
theorem claim_C7 (cmdRes : Except String CmdOutput) :
    (∀ e, cmdRes = .error e →
        resolve_id cmdRes = .error ("Fails to execute command id.sh: " ++ e))
    ∧ (∀ out, cmdRes = .ok out → out.stdout = none →
        resolve_id cmdRes = .error "UTF8 error: invalid utf-8 sequence")
    ∧ (∀ out text, cmdRes = .ok out → out.stdout = some text →
        ((trimChars text).any isIdLetter = true →
          resolve_id cmdRes = .ok (trimChars text))
        ∧ ((trimChars text).any isIdLetter = false →
          resolve_id cmdRes = .error
            ("Invalid thing ID: " ++ String.mk (trimChars text)))) := by
  refine ⟨?_, ?_, ?_⟩
  · intro e he
    rw [he]
    rfl
  · intro out hout hnone
    rw [hout]
    unfold resolve_id
    dsimp only
    rw [hnone]
  · intro out text hout htext
    rw [hout]
    unfold resolve_id
    dsimp only
    rw [htext]
    constructor
    · intro hany
      simp [idRegexIsMatch_any, hany]
    · intro hany
      simp [idRegexIsMatch_any, hany]

/-- Witness for C7 at the well-formed thing ID `dev-1`. -/
theorem claim_C7_witness :
    resolve_id (.ok ⟨some " dev-1 \n".data⟩) = .ok (trimChars " dev-1 \n".data) :=
  ((claim_C7 (.ok ⟨some " dev-1 \n".data⟩)).2.2 ⟨some " dev-1 \n".data⟩
    " dev-1 \n".data rfl rfl).1 (by decide)

/-- Counterexample to C2: an archive containing the entry `orm/run.sh`
twice and no `orm/id.sh` at all is missing a required entry, yet
`extract_archive` succeeds, because the code only checks that the
number of qualifying entries — counted with multiplicity — is 2. -/
theorem claim_C2_counterexample :
    extract_archive "orm" [runEntry, runEntry] = .ok 2
    ∧ ["orm", "id.sh"] ∉ extractedPaths [runEntry, runEntry] := by
  constructor
  · decide
  · decide

theorem resolvePath_clean (l : List String) (acc : List String)
    (h : ∀ c ∈ l, c ≠ ".." ∧ c ≠ ".") :
    resolvePath acc l = acc ++ l := by
  induction l generalizing acc with
  | nil => simp [resolvePath]
  | cons c rest ih =>
    obtain ⟨h1, h2⟩ := h c (List.mem_cons_self c rest)
    rw [resolvePath, if_neg h1, if_neg h2,
      ih _ (fun x hx => h x (List.mem_cons_of_mem c hx))]
    simp

/-- Claim C2 (amended): `extract_archive` succeeds iff exactly two of
the extracted entries qualify — parent equal to the app name and
filename `run.sh` or `id.sh` — counted with multiplicity (an archive
holding each required entry exactly once succeeds; one with fewer or
more qualifying entries, e.g. a missing `id.sh` and no duplicates,
fails with `InvalidArchive` listing whatever qualifying entries were
found).  Extraction unpacks every readable entry at
`extracted_path.join(path)` with no traversal sanitization: an entry
whose path is relative and free of `.`/`..` components is written
below the staging directory, but an entry with an absolute path
replaces the staging base entirely (and `..` components climb out of
it), so a crafted archive can write outside the staging directory —
including into the live `app_dir` — before the validation check; the
live `app_dir` is therefore untouched only for archives without such
paths. -/
theorem claim_C2 (appName : String) (entries : List TarEntry)
    (stagingDir : List String) :
    (extract_archive appName entries = .ok 2 ↔
      ((extractedPaths entries).filter (qualifies appName)).length = 2)
    ∧ (((extractedPaths entries).filter (qualifies appName)).length ≠ 2 →
        extract_archive appName entries =
          .error (.invalidArchive
            ((extractedPaths entries).filter (qualifies appName))))
    ∧ (∀ p ∈ extractedPaths entries, p.head? ≠ some "/" →
        (∀ c ∈ stagingDir ++ p, c ≠ ".." ∧ c ≠ ".") →
        unpackTarget stagingDir p = stagingDir ++ p)
    ∧ (∀ target : List String, (∀ c ∈ target, c ≠ ".." ∧ c ≠ ".") →
        unpackTarget stagingDir ("/" :: target) = "/" :: target) := by
  refine ⟨?_, ?_, ?_, ?_⟩
  · unfold extract_archive
    by_cases h : ((extractedPaths entries).filter (qualifies appName)).length = 2
    · simp [h]
    · simp [h]
  · intro h
    unfold extract_archive
    simp [h]
  · intro p hp habs hclean
    have hjoin : joinPath stagingDir p = stagingDir ++ p := by
      cases p with
      | nil => rfl
      | cons c rest =>
        have hc : c ≠ "/" := by
          intro h
          apply habs
          rw [h]
          rfl
        simp [joinPath, hc]
    rw [unpackTarget, hjoin, resolvePath_clean _ _ hclean]
    simp
  · intro target hclean
    have hcl : ∀ c ∈ ("/" :: target), c ≠ ".." ∧ c ≠ "." := by
      intro c hc
      rcases List.mem_cons.mp hc with rfl | hmem
      · exact ⟨by decide, by decide⟩
      · exact hclean c hmem
    have hjoin : joinPath stagingDir ("/" :: target) = "/" :: target := rfl
    rw [unpackTarget, hjoin, resolvePath_clean _ _ hcl]
    simp

/-- Witness for C2 on a well-formed archive: success, and the
`orm/run.sh` entry (relative, dot-free) is written below the staging
directory. -/
theorem claim_C2_witness :
    extract_archive "orm" goodEntries = .ok 2
    ∧ unpackTarget ["staging"] ["orm", "run.sh"]
        = ["staging"] ++ ["orm", "run.sh"] :=
  ⟨(claim_C2 "orm" goodEntries ["staging"]).1.mpr (by decide),
   (claim_C2 "orm" goodEntries ["staging"]).2.2.1 ["orm", "run.sh"]
     (by decide) (by decide) (by decide)⟩

theorem splitOnChar_noSep (sep : Char) (a : List Char) (h : sep ∉ a) :
    splitOnChar sep a = [a] := by
  induction a with
  | nil => rfl
  | cons c cs ih =>
    have hc : ¬ c = sep := fun hEq => h (hEq ▸ List.mem_cons_self c cs)
    have hrest : sep ∉ cs := fun hm => h (List.mem_cons_of_mem c hm)
    simp [splitOnChar, hc, ih hrest]

theorem splitOnChar_append (sep : Char) (a cs : List Char) (h : sep ∉ a) :
    splitOnChar sep (a ++ sep :: cs) = a :: splitOnChar sep cs := by
  induction a with
  | nil => simp [splitOnChar]
  | cons c a2 ih =>
    have hc : ¬ c = sep := fun hEq => h (hEq ▸ List.mem_cons_self c a2)
    have ha2 : sep ∉ a2 := fun hm => h (List.mem_cons_of_mem c hm)
    simp only [List.cons_append, splitOnChar, if_neg hc]
    rw [show a2.append (sep :: cs) = a2 ++ sep :: cs from rfl, ih ha2]

theorem splitSlash_join_aux (ss : List (List Char)) (a : List Char)
    (ha : '/' ∉ a) (h : ∀ s ∈ ss, '/' ∉ s) :
    splitSlash (a ++ slashJoin ss) = a :: ss := by
  induction ss generalizing a with
  | nil => simpa [slashJoin] using splitOnChar_noSep '/' a ha
  | cons s rest ih =>
    have hs : '/' ∉ s := h s (List.mem_cons_self s rest)
    have hrest : ∀ x ∈ rest, '/' ∉ x :=
      fun x hx => h x (List.mem_cons_of_mem s hx)
    have hjoin : slashJoin (s :: rest) = '/' :: (s ++ slashJoin rest) := by
      simp [slashJoin]
    rw [hjoin]
    unfold splitSlash
    rw [splitOnChar_append '/' a (s ++ slashJoin rest) ha]
    congr 1
    exact ih s hs hrest

theorem splitSlash_slashJoin (ss : List (List Char))
    (h : ∀ s ∈ ss, '/' ∉ s) :
    splitSlash (slashJoin ss) = [] :: ss := by
  simpa using splitSlash_join_aux ss [] (by simp) h

theorem foldSegs (ss : List (List Char)) (acc : List Char)
    (h : ∀ s ∈ ss, s ≠ []) :
    ss.foldl (fun out seg => if seg = [] then out else out ++ '/' :: seg) acc
      = acc ++ slashJoin ss := by
  induction ss generalizing acc with
  | nil => simp [slashJoin]
  | cons s rest ih =>
    have hs : s ≠ [] := h s (List.mem_cons_self s rest)
    rw [List.foldl_cons]
    rw [if_neg hs]
    rw [ih _ (fun x hx => h x (List.mem_cons_of_mem s hx))]
    simp [slashJoin]

theorem parentPathChars_slashJoin (ss : List (List Char))
    (lastSeg : List Char)
    (h : ∀ s ∈ ss, s ≠ [] ∧ '/' ∉ s)
    (hlast2 : '/' ∉ lastSeg) :
    parentPathChars (slashJoin (ss ++ [lastSeg])) = slashJoin ss := by
  unfold parentPathChars
  have hsplit : splitSlash (slashJoin (ss ++ [lastSeg]))
      = [] :: (ss ++ [lastSeg]) := by
    refine splitSlash_slashJoin _ ?_
    intro s hs
    rcases List.mem_append.mp hs with h1 | h1
    · exact (h s h1).2
    · rw [List.mem_singleton.mp h1]
      exact hlast2
  rw [hsplit]
  dsimp only
  rw [show ([] :: (ss ++ [lastSeg])) = (([] :: ss) ++ [lastSeg]) by simp]
  rw [show (([] :: ss) ++ [lastSeg]).length - 1 = ([] :: ss).length by simp]
  rw [List.take_left]
  rw [List.foldl_cons]
  rw [if_pos rfl]
  rw [foldSegs ss [] (fun s hs => (h s hs).1)]
  simp

/-- Claim C8: for every manifest URL with a path component (an absolute
path assembled from nonempty, slash-free segments), `parent_uri` strips
exactly the last path segment while preserving scheme and authority;
in particular `http://foo/manifest.yaml` renders as `http://foo/` and
`https://foo/bar/manifest.yaml` renders as `https://foo/bar`; and the
archive URL is the parent URI's path with `/<app_name>-<version>.tar.gz`
appended, under the parent's scheme and authority. -/
theorem claim_C8 :
    (∀ (scheme authority lastSeg : List Char) (ss : List (List Char)),
        (∀ s ∈ ss, s ≠ [] ∧ '/' ∉ s) → '/' ∉ lastSeg →
        parent_uri scheme authority (some (slashJoin (ss ++ [lastSeg])))
          = some (renderUriChars scheme authority (slashJoin ss)))
    ∧ parent_uri "http".data "foo".data (some "/manifest.yaml".data)
        = some "http://foo/".data
    ∧ parent_uri "https".data "foo".data (some "/bar/manifest.yaml".data)
        = some "https://foo/bar".data
    ∧ (∀ scheme authority parentPath appName ver : List Char,
        archiveUriChars scheme authority parentPath appName ver
          = renderUriChars scheme authority parentPath
              ++ '/' :: (appName ++ '-' :: (ver ++ ".tar.gz".data))) := by
  refine ⟨?_, by decide, by decide, ?_⟩
  · intro scheme authority lastSeg ss h hlast
    have hsplit : splitSlash (slashJoin (ss ++ [lastSeg]))
        = [] :: (ss ++ [lastSeg]) := by
      refine splitSlash_slashJoin _ ?_
      intro s hs
      rcases List.mem_append.mp hs with h1 | h1
      · exact (h s h1).2
      · rw [List.mem_singleton.mp h1]
        exact hlast
    unfold parent_uri
    dsimp only
    rw [hsplit, parentPathChars_slashJoin ss lastSeg h hlast]
    simp
  · intro scheme authority parentPath appName ver
    simp [archiveUriChars, renderUriChars, archivePathChars, List.append_assoc]

/-- Witness for C8's general part at the sub-path manifest URL. -/
theorem claim_C8_witness :
    parent_uri "https".data "foo".data
        (some (slashJoin ["bar".data, "manifest.yaml".data]))
      = some (renderUriChars "https".data "foo".data (slashJoin ["bar".data])) :=
  claim_C8.1 "https".data "foo".data "manifest.yaml".data ["bar".data]
    (by decide) (by decide)

theorem pruneLoop_ok (env : RunEnv) (l : List String) (st : St) (tr : List Ev)
    (hok : pruneResult env l = .ok ()) (hret : st.retained = l) :
    pruneLoop env l st tr
      = (.ok (), { st with retained := [] }, tr ++ l.map Ev.removedRetained) := by
  induction l generalizing st tr with
  | nil =>
    obtain ⟨f1, f2, f3, f4, f5, f6, f7, f8⟩ := st
    simp_all [pruneLoop]
  | cons n rest ih =>
    cases hn : env.removeFileRes n with
    | error e =>
      rw [pruneResult, hn] at hok
      cases hok
    | ok _ =>
      rw [pruneResult, hn] at hok
      unfold pruneLoop
      rw [hn]
      dsimp only
      rw [ih _ _ hok (by rw [hret, List.erase_cons_head])]
      simp

theorem pruneLoop_error (env : RunEnv) (l : List String) (st : St)
    (tr : List Ev) (e : String) (h : pruneResult env l = .error e) :
    ∃ stP trP, pruneLoop env l st tr = (.error e, stP, trP)
      ∧ stP.appDir = st.appDir ∧ stP.ledger = st.ledger
      ∧ stP.childSpawned = st.childSpawned
      ∧ stP.childWaited = st.childWaited
      ∧ stP.archivedTar = st.archivedTar
      ∧ stP.archivedDir = st.archivedDir
      ∧ stP.stagingApp = st.stagingApp := by
  induction l generalizing st tr with
  | nil => cases h
  | cons n rest ih =>
    cases hn : env.removeFileRes n with
    | error e2 =>
      rw [pruneResult, hn] at h
      injection h with he
      subst he
      exact ⟨st, tr, by rw [pruneLoop, hn], rfl, rfl, rfl, rfl, rfl, rfl, rfl⟩
    | ok _ =>
      rw [pruneResult, hn] at h
      obtain ⟨stP, trP, heq, hrest⟩ :=
        ih { st with retained := st.retained.erase n }
          (tr ++ [Ev.removedRetained n]) h
      refine ⟨stP, trP, ?_, hrest⟩
      rw [pruneLoop, hn]
      exact heq

theorem pruneLoop_fst (env : RunEnv) (l : List String) (st : St) (tr : List Ev) :
    (pruneLoop env l st tr).1 = pruneResult env l := by
  induction l generalizing st tr with
  | nil => rfl
  | cons n rest ih =>
    cases hn : env.removeFileRes n with
    | error e => rw [pruneLoop, pruneResult, hn]
    | ok _ =>
      rw [pruneLoop, pruneResult, hn]
      exact ih _ _

theorem pruneLoop_fields (env : RunEnv) (l : List String) (st : St)
    (tr : List Ev) :
    (pruneLoop env l st tr).2.1.appDir = st.appDir
    ∧ (pruneLoop env l st tr).2.1.ledger = st.ledger
    ∧ (pruneLoop env l st tr).2.1.childSpawned = st.childSpawned
    ∧ (pruneLoop env l st tr).2.1.childWaited = st.childWaited := by
  induction l generalizing st tr with
  | nil => exact ⟨rfl, rfl, rfl, rfl⟩
  | cons n rest ih =>
    cases hn : env.removeFileRes n with
    | error e => rw [pruneLoop, hn]; exact ⟨rfl, rfl, rfl, rfl⟩
    | ok _ =>
      rw [pruneLoop, hn]
      exact ih _ _

theorem runHappy_error_case (env : RunEnv) (versionStr : String) (st0 : St)
    (e : String) (h2 : env.rename2 = .ok ())
    (hfail : failsAfterSwap env st0.retained e) :
    ∃ stH trH, runHappy env versionStr st0 = (.error e, stH, trH)
      ∧ stH.appDir.isSome = st0.stagingApp.isSome
      ∧ stH.ledger = st0.ledger
      ∧ stH.childWaited = st0.childWaited
      ∧ (env.spawnRes = .ok () → stH.childSpawned = true) := by
  rcases hfail with hsp | ⟨hsp, harch⟩ |
    ⟨hsp, hl, hct, had, hra, hpr, hcm, hwm, hw⟩
  · simp only [runHappy, h2, hsp]
    refine ⟨_, _, rfl, rfl, rfl, rfl, ?_⟩
    intro h
    exact Except.noConfusion h
  · rcases harch with hl | ⟨hl, hct⟩ | ⟨hl, hct, had⟩ | ⟨hl, hct, had, hra⟩ |
      ⟨hl, hct, had, hra, hpr⟩ | ⟨hl, hct, had, hra, hpr, hcm⟩ |
      ⟨hl, hct, had, hra, hpr, hcm, hwm⟩
    · simp only [runHappy, h2, hsp, hl]
      exact ⟨_, _, rfl, rfl, rfl, rfl, fun _ => rfl⟩
    · simp only [runHappy, h2, hsp, hl, hct]
      exact ⟨_, _, rfl, rfl, rfl, rfl, fun _ => rfl⟩
    · simp only [runHappy, h2, hsp, hl, hct, had]
      exact ⟨_, _, rfl, rfl, rfl, rfl, fun _ => rfl⟩
    · simp only [runHappy, h2, hsp, hl, hct, had, hra]
      exact ⟨_, _, rfl, rfl, rfl, rfl, fun _ => rfl⟩
    · simp only [runHappy, h2, hsp, hl, hct, had, hra]
      split
      · next e1 st5 tr7 heq =>
        have hfst := congrArg (fun t => t.1) heq
        dsimp only at hfst
        rw [pruneLoop_fst, hpr] at hfst
        injection hfst with he1
        subst he1
        have happ := congrArg (fun t => t.2.1.appDir) heq
        dsimp only at happ
        rw [(pruneLoop_fields env st0.retained _ _).1] at happ
        have hledg := congrArg (fun t => t.2.1.ledger) heq
        dsimp only at hledg
        rw [(pruneLoop_fields env st0.retained _ _).2.1] at hledg
        have hcs := congrArg (fun t => t.2.1.childSpawned) heq
        dsimp only at hcs
        rw [(pruneLoop_fields env st0.retained _ _).2.2.1] at hcs
        have hcw := congrArg (fun t => t.2.1.childWaited) heq
        dsimp only at hcw
        rw [(pruneLoop_fields env st0.retained _ _).2.2.2] at hcw
        refine ⟨st5, tr7, rfl, ?_, ?_, ?_, ?_⟩
        · rw [← happ]
        · rw [← hledg]
        · rw [← hcw]
        · intro _
          rw [← hcs]
      · next r st5 tr7 heq =>
        have hfst := congrArg (fun t => t.1) heq
        dsimp only at hfst
        rw [pruneLoop_fst, hpr] at hfst
        cases hfst
    · simp only [runHappy, h2, hsp, hl, hct, had, hra]
      split
      · next e1 st5 tr7 heq =>
        have hfst := congrArg (fun t => t.1) heq
        dsimp only at hfst
        rw [pruneLoop_fst, hpr] at hfst
        cases hfst
      · next r st5 tr7 heq =>
        have happ := congrArg (fun t => t.2.1.appDir) heq
        dsimp only at happ
        rw [(pruneLoop_fields env st0.retained _ _).1] at happ
        have hledg := congrArg (fun t => t.2.1.ledger) heq
        dsimp only at hledg
        rw [(pruneLoop_fields env st0.retained _ _).2.1] at hledg
        have hcs := congrArg (fun t => t.2.1.childSpawned) heq
        dsimp only at hcs
        rw [(pruneLoop_fields env st0.retained _ _).2.2.1] at hcs
        have hcw := congrArg (fun t => t.2.1.childWaited) heq
        dsimp only at hcw
        rw [(pruneLoop_fields env st0.retained _ _).2.2.2] at hcw
        simp only [hcm]
        refine ⟨st5, tr7, rfl, ?_, ?_, ?_, ?_⟩
        · rw [← happ]
        · rw [← hledg]
        · rw [← hcw]
        · intro _
          rw [← hcs]
    · simp only [runHappy, h2, hsp, hl, hct, had, hra]
      split
      · next e1 st5 tr7 heq =>
        have hfst := congrArg (fun t => t.1) heq
        dsimp only at hfst
        rw [pruneLoop_fst, hpr] at hfst
        cases hfst
      · next r st5 tr7 heq =>
        have happ := congrArg (fun t => t.2.1.appDir) heq
        dsimp only at happ
        rw [(pruneLoop_fields env st0.retained _ _).1] at happ
        have hledg := congrArg (fun t => t.2.1.ledger) heq
        dsimp only at hledg
        rw [(pruneLoop_fields env st0.retained _ _).2.1] at hledg
        have hcs := congrArg (fun t => t.2.1.childSpawned) heq
        dsimp only at hcs
        rw [(pruneLoop_fields env st0.retained _ _).2.2.1] at hcs
        have hcw := congrArg (fun t => t.2.1.childWaited) heq
        dsimp only at hcw
        rw [(pruneLoop_fields env st0.retained _ _).2.2.2] at hcw
        simp only [hcm, hwm]
        refine ⟨_, _, rfl, ?_, ?_, ?_, ?_⟩
        · simp only [Option.isSome_map']
          rw [← happ]
        · rw [← hledg]
        · rw [← hcw]
        · intro _
          rw [← hcs]
  · simp only [runHappy, h2, hsp, hl, hct, had, hra]
    split
    · next e1 st5 tr7 heq =>
      have hfst := congrArg (fun t => t.1) heq
      dsimp only at hfst
      rw [pruneLoop_fst, hpr] at hfst
      cases hfst
    · next r st5 tr7 heq =>
      have happ := congrArg (fun t => t.2.1.appDir) heq
      dsimp only at happ
      rw [(pruneLoop_fields env st0.retained _ _).1] at happ
      have hledg := congrArg (fun t => t.2.1.ledger) heq
      dsimp only at hledg
      rw [(pruneLoop_fields env st0.retained _ _).2.1] at hledg
      have hcs := congrArg (fun t => t.2.1.childSpawned) heq
      dsimp only at hcs
      rw [(pruneLoop_fields env st0.retained _ _).2.2.1] at hcs
      have hcw := congrArg (fun t => t.2.1.childWaited) heq
      dsimp only at hcw
      rw [(pruneLoop_fields env st0.retained _ _).2.2.2] at hcw
      simp only [hcm, hwm, hw]
      refine ⟨_, _, rfl, ?_, ?_, ?_, ?_⟩
      · simp only [Option.isSome_map']
        rw [← happ]
      · rw [← hledg]
      · rw [← hcw]
      · intro _
        rw [← hcs]

/-- Claim C1: for every update attempt that reaches the swap (both
renames succeeded, a staged tree was present) and then fails — spawn
failure, wait failure, or an archival/marker-write I/O failure — and
whose rollback steps themselves succeed, `run_updated` appends the
attempted version string to the failed-version ledger (creating the
file if absent), then removes `app_dir` and renames the
archived-previous directory back (in that order, per the final trace),
and returns `NoUpdate` with a message embedding the original error; if
the restoring rename fails, that error propagates as a hard failure
(converted I/O error, no `NoUpdate`); and a failure of the ledger
open/append during the rollback surfaces as the returned error message
rather than being silently discarded. -/
theorem claim_C1 (env : RunEnv) (versionStr : String) (st0 : St) (e : String)
    (h1 : env.rename1 = .ok ()) (h2 : env.rename2 = .ok ())
    (hstage : st0.stagingApp.isSome = true)
    (hfail : failsAfterSwap env st0.retained e) :
    (env.openLedgerRes = .ok () → env.appendLedgerRes = .ok () →
      env.removeAppDirRes = .ok () → env.renameBackRes = .ok () →
      (run_updated env versionStr st0).1 = .ok (.NoUpdate (revertMsg e))
        ∧ (run_updated env versionStr st0).2.1.ledger
            = some (st0.ledger.getD [] ++ [versionStr])
        ∧ (run_updated env versionStr st0).2.1.archivedDir = none
        ∧ ∃ tr, (run_updated env versionStr st0).2.2
            = tr ++ [.appendedLedger versionStr, .removedAppDir,
                     .renamedArchivedToApp])
    ∧ (∀ e2, env.openLedgerRes = .ok () → env.appendLedgerRes = .ok () →
        env.removeAppDirRes = .ok () → env.renameBackRes = .error e2 →
        (run_updated env versionStr st0).1 = .error (ioMsg e2))
    ∧ (∀ e3, env.openLedgerRes = .error e3
          ∨ (env.openLedgerRes = .ok () ∧ env.appendLedgerRes = .error e3) →
        (run_updated env versionStr st0).1 = .error (ioMsg e3)) := by
  obtain ⟨stH, trH, hrh, hsome, hledg, hcw, hcs⟩ :=
    runHappy_error_case env versionStr
      { st0 with archivedDir := st0.appDir, appDir := none } e h2 hfail
  have hsome2 : stH.appDir.isSome = true := by rw [hsome]; exact hstage
  obtain ⟨d, hd⟩ := Option.isSome_iff_exists.mp hsome2
  refine ⟨?_, ?_, ?_⟩
  · intro hol hal hrad hrb
    simp only [run_updated, h1, hrh, hol, hal]
    rw [hd]
    simp only [hrad, revertFinish, hrb, Option.map]
    refine ⟨trivial, ?_, trivial, ?_⟩
    · rw [hledg]
    · exact ⟨[Ev.renamedAppToArchived] ++ trH, by simp⟩
  · intro e2 hol hal hrad hrb
    simp only [run_updated, h1, hrh, hol, hal]
    rw [hd]
    simp only [hrad, revertFinish, hrb]
  · intro e3 hc
    rcases hc with hol | ⟨hol, hal⟩
    · simp only [run_updated, h1, hrh, hol]
    · simp only [run_updated, h1, hrh, hol, hal]

/-- Witness for C1 at a concrete spawn failure with a working rollback. -/
theorem claim_C1_witness :
    (run_updated { envOk with spawnRes := .error "boom" } "1.0.1" stPre).1
        = .ok (.NoUpdate (revertMsg "boom"))
      ∧ (run_updated { envOk with spawnRes := .error "boom" } "1.0.1"
          stPre).2.1.ledger = some (stPre.ledger.getD [] ++ ["1.0.1"])
      ∧ (run_updated { envOk with spawnRes := .error "boom" } "1.0.1"
          stPre).2.1.archivedDir = none
      ∧ ∃ tr, (run_updated { envOk with spawnRes := .error "boom" } "1.0.1"
          stPre).2.2
          = tr ++ [.appendedLedger "1.0.1", .removedAppDir,
                   .renamedArchivedToApp] :=
  (claim_C1 { envOk with spawnRes := .error "boom" } "1.0.1" stPre "boom"
    rfl rfl (by decide) (Or.inl (by decide))).1 rfl rfl rfl rfl

theorem run_updated_success (env : RunEnv) (versionStr : String) (st0 : St)
    (code : Int) (d : AppDirSt)
    (h1 : env.rename1 = .ok ()) (h2 : env.rename2 = .ok ())
    (hsp : env.spawnRes = .ok ()) (hl : env.listRes = .ok ())
    (hct : env.createTarRes = .ok ()) (had : env.appendDirRes = .ok ())
    (hra : env.removeArchivedRes = .ok ())
    (hpr : pruneResult env st0.retained = .ok ())
    (hcm : env.createMarkerRes = .ok ()) (hwm : env.writeMarkerRes = .ok ())
    (hw : env.waitRes = .ok code)
    (hstage : st0.stagingApp = some d) :
    run_updated env versionStr st0
      = (.ok (.AppTerminated code),
         { appDir := some { content := d.content, marker := some versionStr },
           archivedDir := none, archivedTar := true, stagingApp := none,
           retained := [], ledger := st0.ledger, childSpawned := true,
           childWaited := true },
         [.renamedAppToArchived, .renamedStagedToApp, .spawned,
          .listedArchives st0.retained, .createdArchiveTar,
          .appendedArchiveDir, .removedArchivedDir]
           ++ st0.retained.map Ev.removedRetained
           ++ [.createdMarker, .wroteMarker versionStr, .waited code]) := by
  simp only [run_updated, h1, runHappy, h2, hsp, hl, hct, had, hra, hstage]
  rw [pruneLoop_ok env st0.retained]
  · simp only [hcm, hwm, hw, Option.map]
    simp [List.append_assoc]
  · exact hpr
  · rfl

/-- Counterexample to C5: with one previously retained archive on disk,
an update whose `append_dir_all` into the new tarball fails rolls back
to a terminal `NoUpdate`, leaving both the newly created archived
tarball and the old retained archive — two retained `.tar.gz`
generations at rest, violating the claimed at-rest invariant for
arbitrary terminal outcomes. -/
theorem claim_C5_counterexample :
    (run_updated { envOk with appendDirRes := .error "disk full" } "1.0.1"
        stPre).1 = .ok (.NoUpdate (revertMsg "disk full"))
    ∧ (run_updated { envOk with appendDirRes := .error "disk full" } "1.0.1"
        stPre).2.1.archivedTar = true
    ∧ (run_updated { envOk with appendDirRes := .error "disk full" } "1.0.1"
        stPre).2.1.retained = ["orm-20200101000000.tar.gz"] := by
  refine ⟨?_, ?_, ?_⟩ <;> decide

/-- Claim C5 (amended): after every successful update (`run_updated`
returns `AppTerminated`), `app_dir` holds the newly extracted code with
its version marker equal to the installed version string, exactly one
retained archived generation exists for the application under
`local_prefix` (the newly created tarball, all previously listed ones
pruned), and no stale uncompressed archived-previous directory or
staged tree remains; so the at-rest invariant — at most one live
application directory and at most one retained generation — holds
after a successful terminal outcome (after a rolled-back failure,
extra retained tarballs may remain, as the counterexample shows). -/
theorem claim_C5 (env : RunEnv) (versionStr : String) (st0 : St)
    (code : Int) (d : AppDirSt)
    (h1 : env.rename1 = .ok ()) (h2 : env.rename2 = .ok ())
    (hsp : env.spawnRes = .ok ()) (hl : env.listRes = .ok ())
    (hct : env.createTarRes = .ok ()) (had : env.appendDirRes = .ok ())
    (hra : env.removeArchivedRes = .ok ())
    (hpr : pruneResult env st0.retained = .ok ())
    (hcm : env.createMarkerRes = .ok ()) (hwm : env.writeMarkerRes = .ok ())
    (hw : env.waitRes = .ok code)
    (hstage : st0.stagingApp = some d) :
    (run_updated env versionStr st0).1 = .ok (.AppTerminated code)
    ∧ (run_updated env versionStr st0).2.1.appDir
        = some { content := d.content, marker := some versionStr }
    ∧ (run_updated env versionStr st0).2.1.archivedTar = true
    ∧ (run_updated env versionStr st0).2.1.retained = []
    ∧ (run_updated env versionStr st0).2.1.archivedDir = none
    ∧ (run_updated env versionStr st0).2.1.stagingApp = none := by
  rw [run_updated_success env versionStr st0 code d h1 h2 hsp hl hct had hra
    hpr hcm hwm hw hstage]
  exact ⟨rfl, rfl, rfl, rfl, rfl, rfl⟩

/-- Witness for C5 at a fully successful concrete run. -/
theorem claim_C5_witness :
    (run_updated envOk "1.0.1" stPre).1 = .ok (.AppTerminated 0)
    ∧ (run_updated envOk "1.0.1" stPre).2.1.appDir
        = some { content := .newGen, marker := some "1.0.1" }
    ∧ (run_updated envOk "1.0.1" stPre).2.1.archivedTar = true
    ∧ (run_updated envOk "1.0.1" stPre).2.1.retained = []
    ∧ (run_updated envOk "1.0.1" stPre).2.1.archivedDir = none
    ∧ (run_updated envOk "1.0.1" stPre).2.1.stagingApp = none :=
  claim_C5 envOk "1.0.1" stPre 0 ⟨.newGen, none⟩ rfl rfl rfl rfl rfl rfl rfl
    (by decide) rfl rfl rfl rfl

/-- Claim C10: with the swap done and `run.sh` spawned, the archival of
the previous generation, the deletion of the uncompressed archived
directory, the pruning of older retained archives and the writing of
the new version marker all occur after the spawn and before the wait —
the success trace places `spawned` strictly before them and `waited`
strictly after, so the marker already names the new version while the
child is running; and an I/O failure in any of these steps triggers
the rollback (ledger append, removal of `app_dir`, restoring rename)
while the spawned child was never waited for. -/
theorem claim_C10 (env : RunEnv) (versionStr : String) (st0 : St)
    (h1 : env.rename1 = .ok ()) (h2 : env.rename2 = .ok ())
    (hsp : env.spawnRes = .ok ()) :
    (∀ code d, env.listRes = .ok () → env.createTarRes = .ok () →
      env.appendDirRes = .ok () → env.removeArchivedRes = .ok () →
      pruneResult env st0.retained = .ok () → env.createMarkerRes = .ok () →
      env.writeMarkerRes = .ok () → env.waitRes = .ok code →
      st0.stagingApp = some d →
      (run_updated env versionStr st0).2.2
        = [.renamedAppToArchived, .renamedStagedToApp, .spawned,
           .listedArchives st0.retained, .createdArchiveTar,
           .appendedArchiveDir, .removedArchivedDir]
            ++ st0.retained.map Ev.removedRetained
            ++ [.createdMarker, .wroteMarker versionStr, .waited code])
    ∧ (∀ e, archivalFails env st0.retained e →
        st0.stagingApp.isSome = true → st0.childWaited = false →
        env.openLedgerRes = .ok () → env.appendLedgerRes = .ok () →
        env.removeAppDirRes = .ok () → env.renameBackRes = .ok () →
        (run_updated env versionStr st0).1 = .ok (.NoUpdate (revertMsg e))
          ∧ (run_updated env versionStr st0).2.1.childSpawned = true
          ∧ (run_updated env versionStr st0).2.1.childWaited = false
          ∧ Ev.removedAppDir ∈ (run_updated env versionStr st0).2.2
          ∧ Ev.renamedArchivedToApp ∈ (run_updated env versionStr st0).2.2) := by
  constructor
  · intro code d hlk hct had hra hpr hcm hwm hw hstage
    rw [run_updated_success env versionStr st0 code d h1 h2 hsp hlk hct had
      hra hpr hcm hwm hw hstage]
  · intro e harch hstage hcw0 hol hal hrad hrb
    obtain ⟨stH, trH, hrh, hsome, hledg, hcw, hcs⟩ :=
      runHappy_error_case env versionStr
        { st0 with archivedDir := st0.appDir, appDir := none } e h2
        (Or.inr (Or.inl ⟨hsp, harch⟩))
    have hsome2 : stH.appDir.isSome = true := by rw [hsome]; exact hstage
    obtain ⟨d, hd⟩ := Option.isSome_iff_exists.mp hsome2
    simp only [run_updated, h1, hrh, hol, hal]
    rw [hd]
    simp only [hrad, revertFinish, hrb]
    refine ⟨trivial, hcs hsp, ?_, ?_, ?_⟩
    · rw [hcw]
      exact hcw0
    · simp
    · simp

/-- Witness for C10's ordering part at a fully successful run. -/
theorem claim_C10_witness :
    (run_updated envOk "1.0.1" stPre).2.2
      = [.renamedAppToArchived, .renamedStagedToApp, .spawned,
         .listedArchives stPre.retained, .createdArchiveTar,
         .appendedArchiveDir, .removedArchivedDir]
          ++ stPre.retained.map Ev.removedRetained
          ++ [.createdMarker, .wroteMarker "1.0.1", .waited 0] :=
  (claim_C10 envOk "1.0.1" stPre rfl rfl rfl).1 0 ⟨.newGen, none⟩ rfl rfl rfl
    rfl (by decide) rfl rfl rfl rfl

/-- Counterexample to C9: `run_updated` fails with the revert-rename
error, the staging directory is present, and the recursive removal of
the staging directory fails too; `execute` then returns the converted
cleanup error, not the original failure — the cleanup failure masks
the original error. -/
theorem claim_C9_counterexample :
    (run_updated execEnvCleanupFail.runEnv "1.0.1" stPre).1
        = .error (ioMsg "revert rename failed")
    ∧ (executeM "orm" v100 "1.0.1" execEnvCleanupFail stPre).result
        = .error (ioMsg "cleanup denied")
    ∧ ioMsg "cleanup denied" ≠ ioMsg "revert rename failed" := by
  refine ⟨?_, ?_, ?_⟩ <;> decide

/-- Claim C9 (amended): when a failure surfaces from the swap phase
with the staging directory still present, `execute`'s cleanup handler
recursively removes the staging directory before returning; if that
removal succeeds (or the directory is already gone) the original error
is returned, but if the removal itself fails, the removal error —
logged and converted — replaces the original error as the returned
error: the cleanup failure masks the original failure. -/
theorem claim_C9 (appName : String) (cur nv : Version) (verStr : String)
    (env : ExecEnv) (st0 : St) (sz : Nat) (err : String) (st1 : St)
    (tr : List Ev)
    (hparse : Version.parse verStr = some nv)
    (hgate : vle nv cur = false)
    (hnf : find_line st0.ledger
        (fun line =>
          match Version.parse line with
          | some v => v == nv
          | none => false) = .ok none)
    (hdl : env.downloadRes = .ok sz)
    (hex : extract_archive appName env.entries = .ok 2)
    (hrun : run_updated env.runEnv verStr st0 = (.error err, st1, tr)) :
    (env.stagingIsDir = false →
      (executeM appName cur verStr env st0).result = .error err)
    ∧ (env.stagingIsDir = true → env.removeStagingRes = .ok () →
        (executeM appName cur verStr env st0).result = .error err)
    ∧ (∀ cause, env.stagingIsDir = true →
        env.removeStagingRes = .error cause →
        (executeM appName cur verStr env st0).result
          = .error (ioMsg cause)) := by
  refine ⟨?_, ?_, ?_⟩
  · intro hsd
    simp [executeM, hparse, hgate, hnf, hdl, hex, hrun, hsd]
  · intro hsd hrs
    simp [executeM, hparse, hgate, hnf, hdl, hex, hrun, hsd, hrs]
  · intro cause hsd hrs
    simp [executeM, hparse, hgate, hnf, hdl, hex, hrun, hsd, hrs]

/-- Witness for C9 at a concrete run where the staging removal
succeeds, so the original error surfaces. -/
theorem claim_C9_witness :
    (executeM "orm" v100 "1.0.1" execEnvCleanupOk stPre).result
      = .error (ioMsg "revert rename failed") :=
  (claim_C9 "orm" v100 v101 "1.0.1" execEnvCleanupOk stPre 1024
    (ioMsg "revert rename failed")
    (run_updated execEnvCleanupOk.runEnv "1.0.1" stPre).2.1
    (run_updated execEnvCleanupOk.runEnv "1.0.1" stPre).2.2
    (by decide) (by decide) (by decide) (by decide) (by decide)
    (by decide)).2.1 rfl rfl
